import Mathlib

/-!
Verification development for the RDB2Neo4j ETL core (`ETL/etl_script.py`).

The embedding models the three core stages of the script:

* metadata extraction (`extract_relational_schema`): the catalog answers are
  taken as input and folded into the in-memory schema dictionary;
* mapping inference (`generate_initial_config`): tables become node mappings
  unless they are detected as pure link tables, foreign keys become direct or
  link-table relationship mappings;
* batch import (`Neo4jImporter.import_data` with `_merge_nodes_batch` and
  `_merge_rels_batch`): rows are streamed from the relational source, batched,
  and merged into a property-graph state with Cypher `MERGE` semantics.

Database values are modelled by a small universe (`Value`); SQL `NULL` and a
missing key both read back as `Value.null`, matching Python's `dict.get`
returning `None` in both cases.
-/

namespace RDB2Neo4j

/-- A relational / graph property value. `null` stands for SQL NULL and for
Python `None` (what `row.get` returns for an absent column). -/
inductive Value where
  | null
  | intV (n : Int)
  | strV (s : String)
deriving DecidableEq, Repr

/-- A row / property map: ordered association list from column (or property)
names to values, mirroring a Python dict with string keys. -/
abbrev Row := List (String × Value)

/-- `row.get(k)`: the first value bound to `k`, `null` when absent. -/
def rowGet (r : Row) (k : String) : Value :=
  match r.find? (fun kv => kv.1 == k) with
  | some kv => kv.2
  | none => Value.null

/-- `row.get(k)` where `k` itself may be Python `None` (then no string key can
match and the result is `None`). -/
def rowGetO (r : Row) (k : Option String) : Value :=
  match k with
  | some s => rowGet r s
  | none => Value.null

/-- Whether the map binds the key. -/
def rowHasKey (r : Row) (k : String) : Bool :=
  r.any (fun kv => kv.1 == k)

/-- Cypher `SET n += map`: keys of `new` overwrite, other keys of `old` stay. -/
def rowUpdate (old new : Row) : Row :=
  old.filter (fun kv => !(rowHasKey new kv.1)) ++ new

/-- `convert_value_for_neo4j`, restricted to the embedded value universe: the
`Decimal` and `date`/`datetime` branches convert values outside this universe,
so on these values the function is the final `return value` branch. -/
def convertValue (v : Value) : Value := v

/-- One table entry of the extracted schema dictionary:
`{"name": ..., "columns": ..., "primary_key": ...}`. -/
structure TableInfo where
  name : String
  columns : List String
  primary_key : Option String
deriving DecidableEq, Repr

/-- One row of the foreign-key catalog query:
`{from_table, from_column, to_table, to_column}`. -/
structure ForeignKey where
  from_table : String
  from_column : String
  to_table : String
  to_column : String
deriving DecidableEq, Repr

/-- The schema dictionary built by `extract_relational_schema`. -/
structure Schema where
  tables : List TableInfo
  foreign_keys : List ForeignKey
deriving DecidableEq, Repr

/-- Raw catalog answers for one table: the ordered column names and the rows
of the PRIMARY KEY constraint query (one row per key column). -/
structure CatalogTable where
  name : String
  columns : List String
  pkColumns : List String
deriving DecidableEq, Repr

/-- Raw catalog answers for the whole database. -/
structure Catalog where
  tables : List CatalogTable
  foreignKeys : List ForeignKey
deriving DecidableEq, Repr

/-- `pk_result = cursor.fetchone(); primary_key = pk_result[0] if pk_result
else None`: the first row of the PRIMARY KEY constraint query, `None` when the
query returned no row. -/
def extractPrimaryKey (pkColumns : List String) : Option String :=
  pkColumns.head?

/-- `extract_relational_schema`: folds the catalog answers into the schema
dictionary (the queries themselves are the catalog input). -/
def extract_relational_schema (cat : Catalog) : Schema :=
  { tables := cat.tables.map (fun t =>
      { name := t.name, columns := t.columns, primary_key := extractPrimaryKey t.pkColumns }),
    foreign_keys := cat.foreignKeys }

/-- Python `str.upper()` on the identifiers at hand (ASCII catalog names). -/
def strUpper (s : String) : String :=
  String.mk (s.data.map Char.toUpper)

/-- Python `str.split(sep)` on a character list: `"".split(sep)` is `[""]`,
and separators delimit (possibly empty) fields. -/
def splitChars (sep : Char) : List Char → List (List Char)
  | [] => [[]]
  | c :: rest =>
    match splitChars sep rest with
    | h :: t => if c == sep then [] :: h :: t else (c :: h) :: t
    | [] => if c == sep then [[], []] else [[c]]

/-- Python `str.split(sep)`. -/
def pySplit (s : String) (sep : Char) : List String :=
  (splitChars sep s.data).map String.mk

/-- Python `str.capitalize()`: first character upper-cased, the rest
lower-cased. -/
def pyCapitalize (w : String) : String :=
  match w.data with
  | [] => ""
  | c :: cs => String.mk (c.toUpper :: cs.map Char.toLower)

/-- `''.join(word.capitalize() for word in name.split('_'))`. -/
def pascalCase (name : String) : String :=
  String.join ((pySplit name '_').map pyCapitalize)

/-- One entry of the generated `config["nodes"]`. -/
structure NodeMapping where
  source_table : String
  label : String
  properties : List (String × String)
  primary_key : Option String
deriving DecidableEq, Repr

/-- The key a relationship entry carries: `source_foreign_key`
(`"table.column"`) for a direct foreign key on an entity table, or
`source_link_table` for a pure link table. -/
inductive RelSource where
  | foreignKey (source_foreign_key : String)
  | linkTable (source_link_table : String)
deriving DecidableEq, Repr

/-- One entry of the generated `config["relationships"]`. -/
structure RelationshipMapping where
  source : RelSource
  type : String
  from_node_table : String
  to_node_table : String
  direction : Option String
  properties : List (String × String)
deriving DecidableEq, Repr

/-- The whole `config.json` document. -/
structure MappingConfig where
  nodes : List NodeMapping
  relationships : List RelationshipMapping
deriving DecidableEq, Repr

/-- `[fk['from_column'] for fk in schema['foreign_keys'] if fk['from_table'] == name]`. -/
def fkColumnsOf (schema : Schema) (name : String) : List String :=
  (schema.foreign_keys.filter (fun fk => fk.from_table == name)).map (·.from_column)

/-- The pure-link-table test of `generate_initial_config`:
`len(table['columns']) == len(set(fk_columns)) and table['primary_key'] is None`. -/
def isLinkTable (schema : Schema) (t : TableInfo) : Bool :=
  t.columns.length == (fkColumnsOf schema t.name).dedup.length && t.primary_key == none

/-- The node-mapping loop of `generate_initial_config`: skip link tables, map
every other table to a node mapping with an identity property map. -/
def generateNodes (schema : Schema) : List NodeMapping :=
  (schema.tables.filter (fun t => !isLinkTable schema t)).map (fun t =>
    { source_table := t.name
      label := pascalCase t.name
      properties := t.columns.map (fun c => (c, c))
      primary_key := t.primary_key })

/-- `r.get("source_link_table")`. -/
def sourceLinkName? (r : RelationshipMapping) : Option String :=
  match r.source with
  | .linkTable lt => some lt
  | .foreignKey _ => none

/-- `next((t['columns'] for t in schema['tables'] if t['name'] == name), [])`. -/
def linkTableColumns (schema : Schema) (name : String) : List String :=
  match schema.tables.find? (fun t => t.name == name) with
  | some t => t.columns
  | none => []

/-- The direct RelationshipMapping emitted for a foreign key on an entity
table. -/
def directRelOf (fk : ForeignKey) : RelationshipMapping :=
  { source := .foreignKey (fk.from_table ++ "." ++ fk.from_column)
    type := "HAS_" ++ strUpper fk.to_table
    from_node_table := fk.from_table
    to_node_table := fk.to_table
    direction := some "OUT"
    properties := [] }

/-- The link-table RelationshipMapping emitted from the first two related
foreign keys (`related` is the link table's full outgoing foreign-key list,
used to exclude key columns from the property mapping). -/
def linkRelOf (schema : Schema) (lt : String) (related : List ForeignKey)
    (fk1 fk2 : ForeignKey) : RelationshipMapping :=
  { source := .linkTable lt
    type := "HAS_" ++ strUpper fk2.to_table
    from_node_table := fk1.to_table
    to_node_table := fk2.to_table
    direction := none
    properties := ((linkTableColumns schema lt).filter
      (fun c => !((related.map (·.from_column)).contains c))).map (fun c => (c, c)) }

/-- One iteration of the relationship loop of `generate_initial_config` for
foreign key `fk`, acting on the relationships accumulated so far. -/
def genRelStep (schema : Schema) (nodes : List NodeMapping)
    (rels : List RelationshipMapping) (fk : ForeignKey) : List RelationshipMapping :=
  if nodes.any (fun n => n.source_table == fk.from_table) then
    rels ++ [directRelOf fk]
  else
    match schema.foreign_keys.filter (fun f => f.from_table == fk.from_table) with
    | fk1 :: fk2 :: rest =>
      if rels.any (fun r => sourceLinkName? r == some fk.from_table) then rels
      else rels ++ [linkRelOf schema fk.from_table (fk1 :: fk2 :: rest) fk1 fk2]
    | _ => rels

/-- The relationship loop of `generate_initial_config`. -/
def generateRelationships (schema : Schema) (nodes : List NodeMapping) :
    List RelationshipMapping :=
  schema.foreign_keys.foldl (genRelStep schema nodes) []

/-- `generate_initial_config`: the whole config document written to
`config.json`. -/
def generate_initial_config (schema : Schema) : MappingConfig :=
  let nodes := generateNodes schema
  { nodes := nodes, relationships := generateRelationships schema nodes }

/-! ## The batch importer (`Neo4jImporter`)

The relational source is a map from table names to row lists; the target
graph store is a list of nodes (entities with a label and a property map) and
a list of relationships whose endpoints are node positions (node identities).
Cypher `MERGE (n:L {k: v})` matches every node with that label whose stored
property `k` equals `v` (`null` never compares equal), updates all of them
with `SET n += map`, and creates one node when none matches. -/

/-- The relational source: `SELECT * FROM t` returns the rows bound to `t`
(a table the connection does not know yields no rows). -/
abbrev Db := List (String × List Row)

/-- Rows of a table. -/
def dbRows (db : Db) (t : String) : List Row :=
  match db.find? (fun p => p.1 == t) with
  | some p => p.2
  | none => []

/-- One node of the target graph store. -/
structure GNode where
  label : String
  props : Row
deriving DecidableEq, Repr

/-- One relationship of the target graph store; `fromIdx`/`toIdx` are the
positions of its endpoint nodes in the node list. -/
structure GRel where
  fromIdx : Nat
  toIdx : Nat
  relType : String
  props : Row
deriving DecidableEq, Repr

/-- The target graph store. -/
structure GraphState where
  nodes : List GNode
  rels : List GRel
deriving DecidableEq, Repr

/-- The store with its node list replaced. -/
def withNodes (g : GraphState) (ns : List GNode) : GraphState :=
  { g with nodes := ns }

/-- The store with its relationship list replaced. -/
def withRels (g : GraphState) (rels : List GRel) : GraphState :=
  { g with rels := rels }

/-- `self.batch_size = 1000`. -/
def batchSize : Nat := 1000

/-- The batching loop: rows are accumulated and flushed whenever the
accumulator reaches `B`, the remainder is flushed at end of stream. -/
def batchLoop (B : Nat) (acc : List α) : List α → List (List α)
  | [] => if acc.isEmpty then [] else [acc]
  | r :: rest =>
    if B ≤ (acc ++ [r]).length then (acc ++ [r]) :: batchLoop B [] rest
    else batchLoop B (acc ++ [r]) rest

/-- The batches a streamed row list is split into. -/
def chunkBatches (l : List α) : List (List α) :=
  batchLoop batchSize [] l

/-- The property map sent for one node row:
`{neo4j_prop: convert_value_for_neo4j(row.get(rdb_col)) for rdb_col, neo4j_prop in properties_map.items()}`. -/
def buildProps (properties_map : List (String × String)) (row : Row) : Row :=
  properties_map.map (fun p => (p.2, convertValue (rowGet row p.1)))

/-- The match condition of `MERGE (n:label {id_prop: map.id_prop})` against an
existing node. -/
def nodeMergeMatches (label : String) (idp : Option String) (m : Row) (n : GNode) : Bool :=
  n.label == label && rowGetO n.props idp == rowGetO m idp

/-- The property pattern `{id_prop: v}` a created node starts from (the merge
is only executed for rows whose key value is non-null, so `idp` is a column). -/
def idRowOf : Option String → Value → Row
  | some p, v => [(p, v)]
  | none, _ => []

/-- One `MERGE (n:label {id_prop: map.id_prop}) SET n += map` step: update
every matching node, or create one when none matches. -/
def mergeNodeOne (label : String) (idp : Option String) (m : Row)
    (ns : List GNode) : List GNode :=
  if ns.any (nodeMergeMatches label idp m) then
    ns.map (fun n =>
      if nodeMergeMatches label idp m n then { n with props := rowUpdate n.props m } else n)
  else
    ns ++ [{ label := label, props := rowUpdate (idRowOf idp (rowGetO m idp)) m }]

/-- The effect of the node-merge query over the valid rows of one batch. -/
def mergeNodesValid (label : String) (idp : Option String) (valid_props : List Row)
    (g : GraphState) : GraphState :=
  { g with nodes := valid_props.foldl (fun ns m => mergeNodeOne label idp m ns) g.nodes }

/-- `_merge_nodes_batch`: drop rows whose identifying property is null, return
without writing when nothing (or nothing valid) is left, otherwise run the
`UNWIND`-driven merge over the remaining rows in order. -/
def mergeNodesBatch (label : String) (idp : Option String) (prop_list : List Row)
    (g : GraphState) : GraphState :=
  if (prop_list.filter (fun p => !(rowGetO p idp == Value.null))).isEmpty then g
  else mergeNodesValid label idp (prop_list.filter (fun p => !(rowGetO p idp == Value.null))) g

/-- The node import for one `node_def`: stream the table's rows, build the
property maps, and merge them batch by batch. -/
def nodeMappingState (db : Db) (nd : NodeMapping) (g : GraphState) : GraphState :=
  (chunkBatches ((dbRows db nd.source_table).map (buildProps nd.properties))).foldl
    (fun g2 chunk => mergeNodesBatch nd.label nd.primary_key chunk g2) g

/-- Phase 1 of `import_data`: all node batches of all node mappings. -/
def nodePhaseState (cfg : MappingConfig) (db : Db) (g : GraphState) : GraphState :=
  cfg.nodes.foldl (fun g2 nd => nodeMappingState db nd g2) g

/-- The labels/keys a relationship batch query interpolates:
from/to label and primary key of the resolved endpoint node configs, and the
relationship type. -/
structure RelHeader where
  from_label : String
  from_pk : Option String
  to_label : String
  to_pk : Option String
  relType : String
deriving DecidableEq, Repr

/-- One element of `rel_data_list`: `{"from_id": ..., "to_id": ..., "props": ...}`
(direct relationships carry no `props`; the merge then sets an empty map). -/
structure RelRow where
  from_id : Value
  to_id : Value
  props : Row
deriving DecidableEq, Repr

/-- `next((n for n in schema_config['nodes'] if n['source_table'] == t), None)`. -/
def findNodeConfig (nodes : List NodeMapping) (t : String) : Option NodeMapping :=
  nodes.find? (fun n => n.source_table == t)

/-- The join-key resolution of the link-table branch:
`next((fk['from_column'] for fk in schema_data['foreign_keys'] if
fk['from_table'] == link and fk['to_table'] == target), None)` — note that it
reads `schema_data`, the module-global schema of the extraction phase. -/
def resolveFkColumn (fks : List ForeignKey) (link target : String) : Option String :=
  match (fks.filter (fun fk => fk.from_table == link && fk.to_table == target)).head? with
  | some fk => some fk.from_column
  | none => none

/-- The positions of the nodes `MATCH (x:label {pk: v})` binds: a comparison
with `null` is never a match. -/
def matchIdxs (ns : List GNode) (label : String) (pk : Option String) (v : Value) : List Nat :=
  (ns.enum.filter (fun p => p.2.label == label && !(v == Value.null) && rowGetO p.2.props pk == v)).map (·.1)

/-- Whether a relationship of this type already runs between the two nodes. -/
def relExistsB (rels : List GRel) (i j : Nat) (ty : String) : Bool :=
  rels.any (fun r => r.fromIdx == i && r.toIdx == j && r.relType == ty)

/-- One `UNWIND` row of `_merge_rels_batch`: match both endpoint sets and
`MERGE (a)-[r:type]->(b) ON CREATE SET r = map.props` for every endpoint
pair. -/
def matchPairs (ns : List GNode) (h : RelHeader) (rr : RelRow) : List (Nat × Nat) :=
  (matchIdxs ns h.from_label h.from_pk rr.from_id).flatMap
    (fun i => (matchIdxs ns h.to_label h.to_pk rr.to_id).map (fun j => (i, j)))

/-- `MERGE (a)-[r:ty]->(b) ON CREATE SET r = props` for one matched endpoint
pair: create the relationship with the given properties only when no
relationship of this type runs between the pair yet. -/
def addRelPair (ty : String) (props : Row) (rels : List GRel) (ij : Nat × Nat) : List GRel :=
  if relExistsB rels ij.1 ij.2 ty then rels
  else rels ++ [{ fromIdx := ij.1, toIdx := ij.2, relType := ty, props := props }]

def relStepRow (ns : List GNode) (h : RelHeader) (rr : RelRow)
    (rels : List GRel) : List GRel :=
  (matchPairs ns h rr).foldl (addRelPair h.relType rr.props) rels

/-- `_merge_rels_batch`: return without writing on an empty list, otherwise
run the `UNWIND`-driven relationship merge row by row. -/
def mergeRelsBatch (h : RelHeader) (data_list : List RelRow) (g : GraphState) : GraphState :=
  if data_list.isEmpty then g
  else { g with rels := data_list.foldl (fun rels rr => relStepRow g.nodes h rr rels) g.rels }

/-- `(from_pk-value, fk-column-value)` pairs of the direct branch:
`SELECT from_pk, fk_column FROM source_table` with
`{"from_id": row.get(from_pk), "to_id": row.get(fk_column)}`.  A `from_pk` of
`None` is modelled as a null `from_id` (the script would interpolate `None`
into the `SELECT` and fail the query; either way no relationship is
created for such a mapping). -/
def directRelRows (fc : NodeMapping) (db : Db) (source_foreign_key : String) : List RelRow :=
  (dbRows db ((pySplit source_foreign_key '.').getD 0 "")).map (fun row =>
    { from_id := rowGetO row fc.primary_key
      to_id := rowGet row ((pySplit source_foreign_key '.').getD 1 "")
      props := [] })

/-- `(from_id, to_id, props)` triples of the link-table branch, built from the
two resolved foreign-key columns and the mapping's property map. -/
def linkRelRows (rd : RelationshipMapping) (db : Db) (lt from_fk_col to_fk_col : String) :
    List RelRow :=
  (dbRows db lt).map (fun row =>
    { from_id := rowGet row from_fk_col
      to_id := rowGet row to_fk_col
      props := rd.properties.map (fun p => (p.2, convertValue (rowGet row p.1))) })

/-- What the relationship loop does for one `rel_def` before writing: resolve
both endpoint node configs (skip when either is missing), pick the branch by
`source_foreign_key` vs `source_link_table`, resolve the link-table join-key
columns against the extraction-phase schema (skip when either is missing),
and build the queried table plus its `rel_data_list` rows. -/
def relPlan (cfg : MappingConfig) (fks : List ForeignKey) (db : Db)
    (rd : RelationshipMapping) : Option (RelHeader × String × List RelRow) :=
  match findNodeConfig cfg.nodes rd.from_node_table, findNodeConfig cfg.nodes rd.to_node_table with
  | some fc, some tc =>
    let h : RelHeader :=
      { from_label := fc.label, from_pk := fc.primary_key
        to_label := tc.label, to_pk := tc.primary_key, relType := rd.type }
    match rd.source with
    | .foreignKey sfk =>
      some (h, (pySplit sfk '.').getD 0 "", directRelRows fc db sfk)
    | .linkTable lt =>
      match resolveFkColumn fks lt rd.from_node_table, resolveFkColumn fks lt rd.to_node_table with
      | some fcol, some tcol => some (h, lt, linkRelRows rd db lt fcol tcol)
      | _, _ => none
  | _, _ => none

/-- The relationship import for one `rel_def`. -/
def relMappingState (cfg : MappingConfig) (fks : List ForeignKey) (db : Db)
    (rd : RelationshipMapping) (g : GraphState) : GraphState :=
  match relPlan cfg fks db rd with
  | none => g
  | some (h, _, rows) => (chunkBatches rows).foldl (fun g2 chunk => mergeRelsBatch h chunk g2) g

/-- Phase 2 of `import_data`: all relationship batches of all relationship
mappings. -/
def relPhaseState (cfg : MappingConfig) (fks : List ForeignKey) (db : Db)
    (g : GraphState) : GraphState :=
  cfg.relationships.foldl (fun g2 rd => relMappingState cfg fks db rd g2) g

/-- `import_data`: import all nodes, then all relationships. `fks` is the
foreign-key list of the module-global `schema_data` the link-table branch
consults. -/
def importState (cfg : MappingConfig) (fks : List ForeignKey) (db : Db)
    (g : GraphState) : GraphState :=
  relPhaseState cfg fks db (nodePhaseState cfg db g)

/-! ### The importer's operation trace -/

/-- An observable operation of one import run: a `SELECT` against the
relational source, a node upsert batch, or a relationship upsert batch. -/
inductive ImportEvent where
  | sourceQuery (table : String)
  | nodeBatch (label : String) (idp : Option String) (rows : List Row)
  | relBatch (h : RelHeader) (rows : List RelRow)
deriving DecidableEq, Repr

/-- Whether the event is a node upsert batch. -/
def ImportEvent.isNodeBatch : ImportEvent → Bool
  | .nodeBatch _ _ _ => true
  | _ => false

/-- Whether the event is a relationship upsert batch. -/
def ImportEvent.isRelBatch : ImportEvent → Bool
  | .relBatch _ _ => true
  | _ => false

/-- The write `_merge_nodes_batch` issues for one batch: nothing when no row
survives the null-key filter, otherwise one `UNWIND`+`MERGE` query over the
surviving rows. -/
def nodeBatchTrace (label : String) (idp : Option String) (prop_list : List Row) :
    List ImportEvent :=
  if (prop_list.filter (fun p => !(rowGetO p idp == Value.null))).isEmpty then []
  else [.nodeBatch label idp (prop_list.filter (fun p => !(rowGetO p idp == Value.null)))]

/-- The operations of the node import for one `node_def`. -/
def nodeMappingTrace (db : Db) (nd : NodeMapping) : List ImportEvent :=
  .sourceQuery nd.source_table ::
    (chunkBatches ((dbRows db nd.source_table).map (buildProps nd.properties))).flatMap
      (nodeBatchTrace nd.label nd.primary_key)

/-- The write `_merge_rels_batch` issues for one batch. -/
def relBatchTrace (h : RelHeader) (data_list : List RelRow) : List ImportEvent :=
  if data_list.isEmpty then [] else [.relBatch h data_list]

/-- The operations of the relationship import for one `rel_def`. -/
def relMappingTrace (cfg : MappingConfig) (fks : List ForeignKey) (db : Db)
    (rd : RelationshipMapping) : List ImportEvent :=
  match relPlan cfg fks db rd with
  | none => []
  | some (h, tbl, rows) =>
    .sourceQuery tbl :: (chunkBatches rows).flatMap (relBatchTrace h)

/-- The operation trace of one `import_data` run. -/
def importTrace (cfg : MappingConfig) (fks : List ForeignKey) (db : Db) :
    List ImportEvent :=
  cfg.nodes.flatMap (nodeMappingTrace db) ++
    cfg.relationships.flatMap (relMappingTrace cfg fks db)

/-! ## Basic lemmas about property maps -/

theorem rowHasKey_iff {r : Row} {k : String} :
    rowHasKey r k = true ↔ ∃ kv ∈ r, kv.1 = k := by
  simp [rowHasKey, List.any_eq_true]

theorem rowHasKey_of_mem {r : Row} {kv : String × Value} (h : kv ∈ r) :
    rowHasKey r kv.1 = true :=
  rowHasKey_iff.2 ⟨kv, h, rfl⟩

theorem rowGet_of_hasKey_eq_false {r : Row} {k : String} (h : rowHasKey r k = false) :
    rowGet r k = Value.null := by
  unfold rowGet
  have hf : r.find? (fun kv => kv.1 == k) = none := by
    rw [List.find?_eq_none]
    intro kv hkv hbeq
    have : rowHasKey r k = true := by
      refine rowHasKey_iff.2 ⟨kv, hkv, ?_⟩
      exact beq_iff_eq.1 hbeq
    simp [this] at h
  rw [hf]

theorem hasKey_of_rowGet_ne_null {r : Row} {k : String} (h : rowGet r k ≠ Value.null) :
    rowHasKey r k = true := by
  by_contra hc
  exact h (rowGet_of_hasKey_eq_false (Bool.eq_false_iff.2 hc))

theorem rowGet_append_right {a b : Row} {k : String} (h : rowHasKey a k = false) :
    rowGet (a ++ b) k = rowGet b k := by
  unfold rowGet
  have hf : a.find? (fun kv => kv.1 == k) = none := by
    rw [List.find?_eq_none]
    intro kv hkv hbeq
    have : rowHasKey a k = true := rowHasKey_iff.2 ⟨kv, hkv, beq_iff_eq.1 hbeq⟩
    simp [this] at h
  rw [List.find?_append, hf, Option.none_or]

theorem rowHasKey_filter_out {X m : Row} {k : String} (h : rowHasKey m k = true) :
    rowHasKey (X.filter (fun kv => !(rowHasKey m kv.1))) k = false := by
  rw [Bool.eq_false_iff]
  intro hc
  obtain ⟨kv, hkv, hk⟩ := rowHasKey_iff.1 hc
  have := (List.mem_filter.1 hkv).2
  rw [hk, h] at this
  simp at this

theorem rowGet_rowUpdate_of_hasKey {X m : Row} {k : String} (h : rowHasKey m k = true) :
    rowGet (rowUpdate X m) k = rowGet m k := by
  unfold rowUpdate
  exact rowGet_append_right (rowHasKey_filter_out h)

theorem filter_self_keys_nil (m : Row) :
    m.filter (fun kv => !(rowHasKey m kv.1)) = [] := by
  rw [List.filter_eq_nil_iff]
  intro kv hkv
  simp [rowHasKey_of_mem hkv]

/-- Re-applying `SET n += map` with the same map is a no-op. -/
theorem rowUpdate_absorb (X m : Row) : rowUpdate (rowUpdate X m) m = rowUpdate X m := by
  unfold rowUpdate
  rw [List.filter_append, List.filter_filter, filter_self_keys_nil]
  have hc : ∀ kv ∈ X, ((!rowHasKey m kv.1) && !rowHasKey m kv.1) = (!rowHasKey m kv.1) := by
    intro kv _
    exact Bool.and_self _
  rw [List.filter_congr hc]
  simp

theorem rowGetO_rowUpdate_of_ne_null {idp : Option String} {m : Row}
    (hv : rowGetO m idp ≠ Value.null) (X : Row) :
    rowGetO (rowUpdate X m) idp = rowGetO m idp := by
  match idp with
  | none => simp [rowGetO]
  | some p =>
    simp only [rowGetO] at hv ⊢
    exact rowGet_rowUpdate_of_hasKey (hasKey_of_rowGet_ne_null hv)

/-! ## Claim C6 — the primary key the extractor records -/

theorem mem_extract_tables {cat : Catalog} {t : TableInfo} :
    t ∈ (extract_relational_schema cat).tables ↔
      ∃ ct ∈ cat.tables, t = { name := ct.name, columns := ct.columns,
                               primary_key := extractPrimaryKey ct.pkColumns } := by
  simp only [extract_relational_schema, List.mem_map]
  constructor
  · rintro ⟨ct, hct, rfl⟩
    exact ⟨ct, hct, rfl⟩
  · rintro ⟨ct, hct, rfl⟩
    exact ⟨ct, hct, rfl⟩

/-- Claim C6 (corrected): for every catalog table the extractor records, as
`primary_key`, the FIRST row returned by the primary-key constraint query:
the single column of a single-column primary key, `none` when the table has
no primary key, and the first key column — not `none` — when the key is
composite. -/
theorem extractor_primary_key_is_first_column (cat : Catalog) (ct : CatalogTable)
    (h : ct ∈ cat.tables) :
    ∃ t ∈ (extract_relational_schema cat).tables,
      t.name = ct.name ∧ t.columns = ct.columns ∧ t.primary_key = ct.pkColumns.head? := by
  refine ⟨{ name := ct.name, columns := ct.columns,
            primary_key := extractPrimaryKey ct.pkColumns }, ?_, rfl, rfl, rfl⟩
  exact mem_extract_tables.2 ⟨ct, h, rfl⟩

/-- Witness: the corrected C6 statement at a concrete catalog. -/
theorem extractor_primary_key_is_first_column_witness :
    ∃ t ∈ (extract_relational_schema
        { tables := [{ name := "t", columns := ["a", "b"], pkColumns := ["a"] }],
          foreignKeys := [] }).tables,
      t.name = "t" ∧ t.columns = ["a", "b"] ∧ t.primary_key = (["a"] : List String).head? :=
  extractor_primary_key_is_first_column
    { tables := [{ name := "t", columns := ["a", "b"], pkColumns := ["a"] }], foreignKeys := [] }
    { name := "t", columns := ["a", "b"], pkColumns := ["a"] } (by simp)

/-- Counterexample to claim C6 as stated: a table whose primary-key query
returns two columns (a composite key) is recorded with the first column as
`primary_key`, not with `None`. -/
theorem extractor_composite_key_not_none :
    (extract_relational_schema
        { tables := [{ name := "t", columns := ["a", "b", "c"], pkColumns := ["a", "b"] }],
          foreignKeys := [] }).tables.map (·.primary_key) = [some "a"] ∧
      (some "a" : Option String) ≠ none := by
  constructor
  · rfl
  · simp

/-! ## Claim C2 — link-table classification -/

theorem mem_fkColumnsOf {schema : Schema} {nm c : String} :
    c ∈ fkColumnsOf schema nm ↔
      ∃ fk ∈ schema.foreign_keys, fk.from_table = nm ∧ fk.from_column = c := by
  simp [fkColumnsOf, List.mem_map, List.mem_filter, and_assoc]

theorem nodes_of_generate (schema : Schema) :
    (generate_initial_config schema).nodes = generateNodes schema := rfl

/-- The cardinality test of the script agrees with full coverage, for
well-formed tables. -/
theorem length_eq_dedup_iff_covered {schema : Schema} {t : TableInfo}
    (hcols : t.columns.Nodup)
    (hwf : ∀ fk ∈ schema.foreign_keys, fk.from_table = t.name → fk.from_column ∈ t.columns) :
    (t.columns.length = (fkColumnsOf schema t.name).dedup.length ↔
      ∀ c ∈ t.columns, c ∈ fkColumnsOf schema t.name) := by
  have hsub : (fkColumnsOf schema t.name).toFinset ⊆ t.columns.toFinset := by
    intro c hc
    rw [List.mem_toFinset] at hc ⊢
    obtain ⟨fk, hfk, hft, hfc⟩ := mem_fkColumnsOf.1 hc
    exact hfc ▸ hwf fk hfk hft
  have hcard : t.columns.toFinset.card = t.columns.length := by
    rw [List.card_toFinset, hcols.dedup]
  have hfcard : (fkColumnsOf schema t.name).toFinset.card =
      (fkColumnsOf schema t.name).dedup.length := List.card_toFinset _
  constructor
  · intro hlen c hc
    have hle : t.columns.toFinset.card ≤ (fkColumnsOf schema t.name).toFinset.card := by
      omega
    have := Finset.eq_of_subset_of_card_le hsub hle
    rw [← List.mem_toFinset, ← this, List.mem_toFinset] at hc
    exact hc
  · intro hcov
    have hsub2 : t.columns.toFinset ⊆ (fkColumnsOf schema t.name).toFinset := by
      intro c hc
      rw [List.mem_toFinset] at hc ⊢
      exact hcov c hc
    have := le_antisymm (Finset.card_le_card hsub) (Finset.card_le_card hsub2)
    omega

/-- Claim C2 (confirmed): for a well-formed schema (duplicate-free column
lists, foreign keys referencing actual columns, uniquely named tables) a
table is excluded from the generated node mappings exactly when it has no
primary key and each of its columns is the `from` column of one of its
outgoing foreign keys. -/
theorem link_table_excluded_iff (schema : Schema) (t : TableInfo)
    (ht : t ∈ schema.tables)
    (hcols : t.columns.Nodup)
    (hwf : ∀ fk ∈ schema.foreign_keys, fk.from_table = t.name → fk.from_column ∈ t.columns)
    (hnames : (schema.tables.map (·.name)).Nodup) :
    ((∀ nm ∈ (generate_initial_config schema).nodes, nm.source_table ≠ t.name) ↔
      (t.primary_key = none ∧
        ∀ c ∈ t.columns, ∃ fk ∈ schema.foreign_keys,
          fk.from_table = t.name ∧ fk.from_column = c)) := by
  have hfrom : ∀ nm ∈ (generate_initial_config schema).nodes,
      ∃ t' ∈ schema.tables, isLinkTable schema t' = false ∧ nm.source_table = t'.name := by
    intro nm hnm
    rw [nodes_of_generate] at hnm
    simp only [generateNodes, List.mem_map, List.mem_filter, Bool.not_eq_true'] at hnm
    obtain ⟨t', ⟨ht', hlt⟩, rfl⟩ := hnm
    exact ⟨t', ht', hlt, rfl⟩
  have hto : ∀ t' ∈ schema.tables, isLinkTable schema t' = false →
      ∃ nm ∈ (generate_initial_config schema).nodes, nm.source_table = t'.name := by
    intro t' ht' hlt
    rw [nodes_of_generate]
    simp only [generateNodes, List.mem_map, List.mem_filter, Bool.not_eq_true']
    exact ⟨_, ⟨t', ⟨ht', hlt⟩, rfl⟩, rfl⟩
  have hlink : (∀ nm ∈ (generate_initial_config schema).nodes, nm.source_table ≠ t.name) ↔
      isLinkTable schema t = true := by
    constructor
    · intro hall
      by_contra hc
      have hlt : isLinkTable schema t = false := Bool.eq_false_iff.2 hc
      obtain ⟨nm, hnm, hst⟩ := hto t ht hlt
      exact hall nm hnm hst
    · intro hlt nm hnm hst
      obtain ⟨t', ht', hlt', hst'⟩ := hfrom nm hnm
      have : t' = t :=
        List.inj_on_of_nodup_map hnames ht' ht (by rw [← hst', hst])
      rw [this, hlt] at hlt'
      exact Bool.true_eq_false.mp hlt'
  rw [hlink]
  simp only [isLinkTable, Bool.and_eq_true, beq_iff_eq]
  rw [length_eq_dedup_iff_covered hcols hwf]
  constructor
  · rintro ⟨hcov, hpk⟩
    exact ⟨hpk, fun c hc => mem_fkColumnsOf.1 (hcov c hc)⟩
  · rintro ⟨hpk, hcov⟩
    exact ⟨fun c hc => mem_fkColumnsOf.2 (hcov c hc), hpk⟩

/-- Witness: the classification at the spec's end-to-end example — the
`founded_by` table (no primary key, both columns covered by its two foreign
keys) is excluded from node mappings. -/
theorem link_table_excluded_iff_witness :
    (generate_initial_config
        { tables := [⟨"company", ["id", "name"], some "id"⟩,
                     ⟨"person", ["id", "name"], some "id"⟩,
                     ⟨"founded_by", ["company_id", "person_id"], none⟩],
          foreign_keys := [⟨"founded_by", "company_id", "company", "id"⟩,
                           ⟨"founded_by", "person_id", "person", "id"⟩] }).nodes.all
      (fun nm => !(nm.source_table == "founded_by")) = true := by
  have h := link_table_excluded_iff
    { tables := [⟨"company", ["id", "name"], some "id"⟩,
                 ⟨"person", ["id", "name"], some "id"⟩,
                 ⟨"founded_by", ["company_id", "person_id"], none⟩],
      foreign_keys := [⟨"founded_by", "company_id", "company", "id"⟩,
                       ⟨"founded_by", "person_id", "person", "id"⟩] }
    ⟨"founded_by", ["company_id", "person_id"], none⟩
    (by simp) (by decide) (by decide) (by decide)
  have h2 := h.2 (by decide)
  rw [List.all_eq_true]
  intro nm hnm
  simpa using h2 nm hnm

/-! ## Claim C4 — identity invariants of the generated config -/

/-- A schema with two foreign keys from one entity table to the same target:
`employee.manager_id → employee.id` and `employee.mentor_id → employee.id`. -/
def schemaTwoFks : Schema :=
  { tables := [⟨"employee", ["id", "manager_id", "mentor_id"], some "id"⟩],
    foreign_keys := [⟨"employee", "manager_id", "employee", "id"⟩,
                     ⟨"employee", "mentor_id", "employee", "id"⟩] }

/-- Counterexample to claim C4 as stated: with uniquely named tables, two
foreign keys of one entity table pointing at the same target produce two
direct RelationshipMapping entries with the same (source table, type)
identity — the script deduplicates only link-table relationships. -/
theorem direct_relationships_share_identity :
    (schemaTwoFks.tables.map (·.name)).Nodup ∧
    (generate_initial_config schemaTwoFks).relationships.map
        (fun r => (r.from_node_table, r.type)) =
      [("employee", "HAS_EMPLOYEE"), ("employee", "HAS_EMPLOYEE")] ∧
    ¬ ((generate_initial_config schemaTwoFks).relationships.map
        (fun r => (r.from_node_table, r.type))).Nodup := by
  refine ⟨by decide, by decide, by decide⟩

theorem sourceLinkName_directRelOf (fk : ForeignKey) :
    sourceLinkName? (directRelOf fk) = none := rfl

theorem sourceLinkName_linkRelOf (schema : Schema) (lt : String)
    (related : List ForeignKey) (fk1 fk2 : ForeignKey) :
    sourceLinkName? (linkRelOf schema lt related fk1 fk2) = some lt := rfl

theorem genRelStep_link_count (schema : Schema) (nodes : List NodeMapping)
    (rels : List RelationshipMapping) (fk : ForeignKey)
    (h : ∀ L, (rels.filter (fun r => sourceLinkName? r == some L)).length ≤ 1) :
    ∀ L, ((genRelStep schema nodes rels fk).filter
        (fun r => sourceLinkName? r == some L)).length ≤ 1 := by
  intro L
  unfold genRelStep
  split
  · rw [List.filter_append]
    have hnil : [directRelOf fk].filter (fun r => sourceLinkName? r == some L) = [] := by
      rw [List.filter_eq_nil_iff]
      intro r hr
      simp only [List.mem_singleton] at hr
      subst hr
      simp [sourceLinkName_directRelOf]
    rw [hnil, List.append_nil]
    exact h L
  · split
    · rename_i fk1 fk2 rest hmatch
      split
      · exact h L
      · rename_i hguard
        rw [List.filter_append]
        by_cases hL : fk.from_table = L
        · subst hL
          have hnil : rels.filter (fun r => sourceLinkName? r == some fk.from_table) = [] := by
            rw [List.filter_eq_nil_iff]
            intro r hr hc
            have : rels.any (fun r => sourceLinkName? r == some fk.from_table) = true :=
              List.any_eq_true.2 ⟨r, hr, hc⟩
            exact hguard this
          rw [hnil]
          simp [sourceLinkName_linkRelOf]
        · have hnil : [linkRelOf schema fk.from_table (fk1 :: fk2 :: rest) fk1 fk2].filter
              (fun r => sourceLinkName? r == some L) = [] := by
            rw [List.filter_eq_nil_iff]
            intro r hr
            simp only [List.mem_singleton] at hr
            subst hr
            simp [sourceLinkName_linkRelOf, hL]
          rw [hnil, List.append_nil]
          exact h L
    · exact h L

/-- Claim C4 (corrected, part that holds): for uniquely named tables, no two
generated NodeMapping entries share a source table, and each link table emits
at most one RelationshipMapping.  (The direct-relationship half of the claim
fails, see the counterexample.) -/
theorem config_identity_partial_invariants (schema : Schema)
    (hnames : (schema.tables.map (·.name)).Nodup) :
    ((generate_initial_config schema).nodes.map (·.source_table)).Nodup ∧
    ∀ L, ((generate_initial_config schema).relationships.filter
        (fun r => sourceLinkName? r == some L)).length ≤ 1 := by
  constructor
  · rw [nodes_of_generate]
    unfold generateNodes
    rw [List.map_map]
    have : ((fun nm : NodeMapping => nm.source_table) ∘ fun t : TableInfo =>
        ({ source_table := t.name, label := pascalCase t.name,
           properties := t.columns.map (fun c => (c, c)),
           primary_key := t.primary_key } : NodeMapping)) = fun t : TableInfo => t.name := rfl
    rw [this]
    exact ((List.filter_sublist schema.tables).map _).nodup hnames
  · have main : ∀ (fks : List ForeignKey) (rels : List RelationshipMapping),
        (∀ L, (rels.filter (fun r => sourceLinkName? r == some L)).length ≤ 1) →
        ∀ L, ((fks.foldl (genRelStep schema (generateNodes schema)) rels).filter
            (fun r => sourceLinkName? r == some L)).length ≤ 1 := by
      intro fks
      induction fks with
      | nil => intro rels h L; exact h L
      | cons fk fks ih =>
        intro rels h L
        exact ih _ (genRelStep_link_count schema _ rels fk h) L
    intro L
    exact main schema.foreign_keys [] (fun _ => by simp) L

/-- Witness: the corrected C4 invariants at the spec's end-to-end schema. -/
theorem config_identity_partial_invariants_witness :
    ((generate_initial_config
        { tables := [⟨"company", ["id", "name"], some "id"⟩,
                     ⟨"person", ["id", "name"], some "id"⟩,
                     ⟨"founded_by", ["company_id", "person_id"], none⟩],
          foreign_keys := [⟨"founded_by", "company_id", "company", "id"⟩,
                           ⟨"founded_by", "person_id", "person", "id"⟩] }).nodes.map
        (·.source_table)).Nodup ∧
    ∀ L, ((generate_initial_config
        { tables := [⟨"company", ["id", "name"], some "id"⟩,
                     ⟨"person", ["id", "name"], some "id"⟩,
                     ⟨"founded_by", ["company_id", "person_id"], none⟩],
          foreign_keys := [⟨"founded_by", "company_id", "company", "id"⟩,
                           ⟨"founded_by", "person_id", "person", "id"⟩] }).relationships.filter
        (fun r => sourceLinkName? r == some L)).length ≤ 1 :=
  config_identity_partial_invariants _ (by decide)

/-! ## Claim C7 — link-table endpoint assignment -/

/-- A link table `lt` whose two foreign keys appear in the schema in the
OPPOSITE of the order of their referencing column names:
`lt.z_col → b.id` first, `lt.a_col → a.id` second. -/
def schemaUnsorted : Schema :=
  { tables := [⟨"a", ["id"], some "id"⟩, ⟨"b", ["id"], some "id"⟩,
               ⟨"lt", ["z_col", "a_col"], none⟩],
    foreign_keys := [⟨"lt", "z_col", "b", "id"⟩, ⟨"lt", "a_col", "a", "id"⟩] }

/-- Counterexample to claim C7 as stated: the engine does NOT sort a link
table's foreign keys by referencing column name.  Sorting `z_col, a_col`
would put the `a_col → a` key first and the `z_col → b` key second, giving
type `HAS_B` with endpoints `a → b`; the script keeps schema enumeration
order and emits type `HAS_A` with endpoints `b → a`. -/
theorem link_endpoints_not_sorted :
    ("a_col" : String).data < ("z_col" : String).data ∧
    (generate_initial_config schemaUnsorted).relationships.map
        (fun r => (r.type, r.from_node_table, r.to_node_table)) = [("HAS_A", "b", "a")] ∧
    (("HAS_A", "b", "a") : String × String × String) ≠ ("HAS_B", "a", "b") := by
  refine ⟨by decide, by decide, by decide⟩

/-- Claim C7 (corrected): the first two foreign keys of a pure link table in
schema enumeration order (not sorted) become the from/to endpoints, the type
name is `HAS_` + uppercased to-table of the second, and the properties are an
identity mapping over the link-table columns not used as the `from` column of
any of its foreign keys. -/
theorem link_endpoints_enumeration_order (schema : Schema) (nodes : List NodeMapping)
    (rels : List RelationshipMapping) (fk fk1 fk2 : ForeignKey) (rest : List ForeignKey)
    (hent : nodes.any (fun n => n.source_table == fk.from_table) = false)
    (hrel : schema.foreign_keys.filter (fun f => f.from_table == fk.from_table) =
      fk1 :: fk2 :: rest)
    (hnew : rels.any (fun r => sourceLinkName? r == some fk.from_table) = false) :
    genRelStep schema nodes rels fk =
      rels ++ [linkRelOf schema fk.from_table (fk1 :: fk2 :: rest) fk1 fk2] ∧
    (linkRelOf schema fk.from_table (fk1 :: fk2 :: rest) fk1 fk2).type =
      "HAS_" ++ strUpper fk2.to_table ∧
    (linkRelOf schema fk.from_table (fk1 :: fk2 :: rest) fk1 fk2).from_node_table =
      fk1.to_table ∧
    (linkRelOf schema fk.from_table (fk1 :: fk2 :: rest) fk1 fk2).to_node_table =
      fk2.to_table ∧
    (linkRelOf schema fk.from_table (fk1 :: fk2 :: rest) fk1 fk2).properties =
      ((linkTableColumns schema fk.from_table).filter
        (fun c => !(((fk1 :: fk2 :: rest).map (·.from_column)).contains c))).map
          (fun c => (c, c)) := by
  refine ⟨?_, rfl, rfl, rfl, rfl⟩
  unfold genRelStep
  rw [hent, hrel, hnew]
  simp

/-- Witness: the corrected C7 statement at the unsorted-schema example. -/
theorem link_endpoints_enumeration_order_witness :
    genRelStep schemaUnsorted (generateNodes schemaUnsorted) []
        ⟨"lt", "z_col", "b", "id"⟩ =
      [] ++ [linkRelOf schemaUnsorted "lt"
        [⟨"lt", "z_col", "b", "id"⟩, ⟨"lt", "a_col", "a", "id"⟩]
        ⟨"lt", "z_col", "b", "id"⟩ ⟨"lt", "a_col", "a", "id"⟩] ∧
    (linkRelOf schemaUnsorted "lt"
        [⟨"lt", "z_col", "b", "id"⟩, ⟨"lt", "a_col", "a", "id"⟩]
        ⟨"lt", "z_col", "b", "id"⟩ ⟨"lt", "a_col", "a", "id"⟩).type =
      "HAS_" ++ strUpper "a" ∧
    (linkRelOf schemaUnsorted "lt"
        [⟨"lt", "z_col", "b", "id"⟩, ⟨"lt", "a_col", "a", "id"⟩]
        ⟨"lt", "z_col", "b", "id"⟩ ⟨"lt", "a_col", "a", "id"⟩).from_node_table = "b" ∧
    (linkRelOf schemaUnsorted "lt"
        [⟨"lt", "z_col", "b", "id"⟩, ⟨"lt", "a_col", "a", "id"⟩]
        ⟨"lt", "z_col", "b", "id"⟩ ⟨"lt", "a_col", "a", "id"⟩).to_node_table = "a" ∧
    (linkRelOf schemaUnsorted "lt"
        [⟨"lt", "z_col", "b", "id"⟩, ⟨"lt", "a_col", "a", "id"⟩]
        ⟨"lt", "z_col", "b", "id"⟩ ⟨"lt", "a_col", "a", "id"⟩).properties =
      ((linkTableColumns schemaUnsorted "lt").filter
        (fun c => !((([⟨"lt", "z_col", "b", "id"⟩, ⟨"lt", "a_col", "a", "id"⟩] :
          List ForeignKey).map (·.from_column)).contains c))).map (fun c => (c, c)) :=
  link_endpoints_enumeration_order schemaUnsorted (generateNodes schemaUnsorted) []
    ⟨"lt", "z_col", "b", "id"⟩ ⟨"lt", "z_col", "b", "id"⟩ ⟨"lt", "a_col", "a", "id"⟩ []
    (by decide) (by decide) (by decide)

/-! ## Claim C3 — what determines the link-table join keys -/

/-- A config whose link-table relationship names only tables; the join-key
columns are not part of the document. -/
def cfgShared : MappingConfig :=
  { nodes := [⟨"t1", "T1", [("id", "id")], some "id"⟩,
              ⟨"t2", "T2", [("id", "id")], some "id"⟩],
    relationships := [⟨.linkTable "lt", "HAS_T2", "t1", "t2", none, []⟩] }

/-- Source rows for the shared config. -/
def dbShared : Db :=
  [("t1", [[("id", .intV 1)]]),
   ("t2", [[("id", .intV 2)]]),
   ("lt", [[("a", .intV 1), ("b", .intV 2)]])]

/-- One possible extraction-phase foreign-key state. -/
def fksA : List ForeignKey := [⟨"lt", "a", "t1", "id"⟩, ⟨"lt", "b", "t2", "id"⟩]

/-- Another extraction-phase foreign-key state with the same tables but the
join columns swapped. -/
def fksB : List ForeignKey := [⟨"lt", "b", "t1", "id"⟩, ⟨"lt", "a", "t2", "id"⟩]

/-- Counterexample to claim C3 as stated: with the SAME persisted
MappingConfig and the SAME source rows, two different values of the
extraction-phase global `schema_data` make the importer resolve different
join-key columns and issue different relationship writes — the join keys are
not determined by the MappingConfig document alone. -/
theorem importer_reads_extraction_state :
    resolveFkColumn fksA "lt" "t1" = some "a" ∧
    resolveFkColumn fksB "lt" "t1" = some "b" ∧
    importTrace cfgShared fksA dbShared ≠ importTrace cfgShared fksB dbShared := by
  refine ⟨by decide, by decide, by decide⟩

/-- Claim C3 (corrected): the importer never re-runs schema extraction, but
the link-table join-key columns are a function of the extraction-phase
schema's foreign keys out of the link table (together with the mapping's
endpoint tables): any two foreign-key states agreeing on the link table's
outgoing keys resolve identically. -/
theorem link_join_cols_from_schema (fks fks2 : List ForeignKey) (lt target : String)
    (h : fks.filter (fun f => f.from_table == lt) = fks2.filter (fun f => f.from_table == lt)) :
    resolveFkColumn fks lt target = resolveFkColumn fks2 lt target := by
  have key : ∀ l : List ForeignKey,
      l.filter (fun fk => fk.from_table == lt && fk.to_table == target) =
        (l.filter (fun f => f.from_table == lt)).filter (fun f => f.to_table == target) := by
    intro l
    rw [List.filter_filter]
    exact (List.filter_congr (fun a _ => Bool.and_comm _ _)).symm
  unfold resolveFkColumn
  rw [key fks, key fks2, h]

/-- Witness: the corrected C3 statement at concrete foreign-key states. -/
theorem link_join_cols_from_schema_witness :
    resolveFkColumn fksA "lt" "t1" =
      resolveFkColumn (⟨"x", "c", "y", "id"⟩ :: fksA) "lt" "t1" :=
  link_join_cols_from_schema fksA (⟨"x", "c", "y", "id"⟩ :: fksA) "lt" "t1" (by decide)

/-! ## Claim C5 — node phase strictly before relationship phase -/

/-- Claim C5 (confirmed): the importer's trace splits into a first part with
no relationship upsert batch and a second part with no node upsert batch —
every node batch of every NodeMapping is issued before any relationship batch
of any RelationshipMapping. -/
theorem nodes_before_relationships (cfg : MappingConfig) (fks : List ForeignKey) (db : Db) :
    ∃ pre post, importTrace cfg fks db = pre ++ post ∧
      (∀ e ∈ pre, e.isRelBatch = false) ∧ (∀ e ∈ post, e.isNodeBatch = false) := by
  refine ⟨cfg.nodes.flatMap (nodeMappingTrace db),
          cfg.relationships.flatMap (relMappingTrace cfg fks db), rfl, ?_, ?_⟩
  · intro e he
    obtain ⟨nd, _, he⟩ := List.mem_flatMap.1 he
    unfold nodeMappingTrace at he
    rcases List.mem_cons.1 he with rfl | he
    · rfl
    · obtain ⟨chunk, _, he⟩ := List.mem_flatMap.1 he
      unfold nodeBatchTrace at he
      split at he
      · simp at he
      · rcases List.mem_singleton.1 he with rfl
        rfl
  · intro e he
    obtain ⟨rd, _, he⟩ := List.mem_flatMap.1 he
    unfold relMappingTrace at he
    split at he
    · simp at he
    · rcases List.mem_cons.1 he with rfl | he
      · rfl
      · obtain ⟨chunk, _, he⟩ := List.mem_flatMap.1 he
        unfold relBatchTrace at he
        split at he
        · simp at he
        · rcases List.mem_singleton.1 he with rfl
          rfl

/-! ## Claim C8 — null-key rows are dropped, the rest written -/

/-- The rows carried by the node upsert batches of a trace. -/
def writtenNodeRows (evs : List ImportEvent) : List Row :=
  evs.flatMap (fun e =>
    match e with
    | .nodeBatch _ _ rows => rows
    | _ => [])

/-- Claim C8 (confirmed): a row whose identifying-property value is null is
excluded from the batch write (it is among the skipped rows, never among the
written ones), the remaining rows are still written, the null rows never
change what happens to the valid ones, and a batch of only null-key rows
issues no write at all. -/
theorem null_key_rows_skipped (label : String) (idp : Option String)
    (prop_list : List Row) (g : GraphState) :
    mergeNodesBatch label idp prop_list g =
      mergeNodesBatch label idp
        (prop_list.filter (fun p => !(rowGetO p idp == Value.null))) g ∧
    (∀ p ∈ prop_list, rowGetO p idp = Value.null →
      p ∉ writtenNodeRows (nodeBatchTrace label idp prop_list)) ∧
    (∀ p ∈ prop_list, rowGetO p idp ≠ Value.null →
      p ∈ writtenNodeRows (nodeBatchTrace label idp prop_list)) ∧
    ((∀ p ∈ prop_list, rowGetO p idp = Value.null) →
      nodeBatchTrace label idp prop_list = [] ∧
        mergeNodesBatch label idp prop_list g = g) := by
  have hidem : (prop_list.filter (fun p => !(rowGetO p idp == Value.null))).filter
      (fun p => !(rowGetO p idp == Value.null)) =
      prop_list.filter (fun p => !(rowGetO p idp == Value.null)) := by
    rw [List.filter_filter]
    exact List.filter_congr (fun a _ => Bool.and_self _)
  refine ⟨?_, ?_, ?_, ?_⟩
  · unfold mergeNodesBatch
    rw [hidem]
  · intro p hp hnull hmem
    unfold nodeBatchTrace at hmem
    split at hmem
    · simp [writtenNodeRows] at hmem
    · simp only [writtenNodeRows, List.flatMap_cons, List.flatMap_nil,
        List.append_nil] at hmem
      have := (List.mem_filter.1 hmem).2
      rw [hnull] at this
      simp at this
  · intro p hp hne
    have hpv : p ∈ prop_list.filter (fun p => !(rowGetO p idp == Value.null)) :=
      List.mem_filter.2 ⟨hp, by simpa using hne⟩
    unfold nodeBatchTrace
    split
    · rename_i hemp
      rw [List.isEmpty_iff] at hemp
      rw [hemp] at hpv
      simp at hpv
    · simpa [writtenNodeRows] using hpv
  · intro hall
    have hnil : prop_list.filter (fun p => !(rowGetO p idp == Value.null)) = [] := by
      rw [List.filter_eq_nil_iff]
      intro p hp
      simp [hall p hp]
    constructor
    · unfold nodeBatchTrace
      rw [hnil]
      rfl
    · unfold mergeNodesBatch
      rw [hnil]
      rfl

/-! ## Claim C9 — node mappings without an identifying property -/

/-- A node mapping whose `primary_key` is `None`. -/
def ndNoPk : NodeMapping := ⟨"t", "T", [("id", "id")], none⟩

/-- A source with one row in `t`. -/
def dbOneRow : Db := [("t", [[("id", .intV 1)]])]

/-- Counterexample to claim C9 as stated: a NodeMapping with `primary_key =
None` is NOT rejected before import — the importer runs its node-import phase
(the `SELECT` against the source table is issued, the row is streamed) even
though every row is then dropped by the null-key filter. -/
theorem pk_none_mapping_still_processed :
    ndNoPk.primary_key = none ∧
    dbRows dbOneRow "t" ≠ [] ∧
    nodeMappingTrace dbOneRow ndNoPk = [.sourceQuery "t"] ∧
    nodeMappingTrace dbOneRow ndNoPk ≠ [] := by
  refine ⟨rfl, by decide, by decide, by decide⟩

theorem mergeNodesBatch_none (label : String) (chunk : List Row) (g : GraphState) :
    mergeNodesBatch label none chunk g = g := by
  unfold mergeNodesBatch
  have : chunk.filter (fun p => !(rowGetO p none == Value.null)) = [] := by
    rw [List.filter_eq_nil_iff]
    intro p _
    simp [rowGetO]
  rw [this]
  rfl

/-- Claim C9 (corrected): a NodeMapping without an identifying property is
processed rather than rejected, but its node-import phase can never write: a
`None` key filters out every row, so the graph state is unchanged and no node
upsert batch is issued for that mapping. -/
theorem pk_none_mapping_writes_nothing (db : Db) (nd : NodeMapping) (g : GraphState)
    (h : nd.primary_key = none) :
    nodeMappingState db nd g = g ∧
    ∀ e ∈ nodeMappingTrace db nd, e.isNodeBatch = false := by
  constructor
  · unfold nodeMappingState
    rw [h]
    generalize chunkBatches ((dbRows db nd.source_table).map (buildProps nd.properties)) = L
    induction L generalizing g with
    | nil => rfl
    | cons c L ih =>
      rw [List.foldl_cons, mergeNodesBatch_none]
      exact ih g
  · intro e he
    unfold nodeMappingTrace at he
    rcases List.mem_cons.1 he with rfl | he
    · rfl
    · obtain ⟨chunk, _, he⟩ := List.mem_flatMap.1 he
      rw [h] at he
      unfold nodeBatchTrace at he
      have hnil : chunk.filter (fun p => !(rowGetO p none == Value.null)) = [] := by
        rw [List.filter_eq_nil_iff]
        intro p _
        simp [rowGetO]
      rw [hnil] at he
      simp at he

/-- Witness: the corrected C9 statement at the one-row example. -/
theorem pk_none_mapping_writes_nothing_witness :
    nodeMappingState dbOneRow ndNoPk ⟨[], []⟩ = ⟨[], []⟩ ∧
    ∀ e ∈ nodeMappingTrace dbOneRow ndNoPk, e.isNodeBatch = false :=
  pk_none_mapping_writes_nothing dbOneRow ndNoPk ⟨[], []⟩ rfl

/-! ## Claim C10 — self-referencing link tables -/

/-- Claim C10 (confirmed): for a link-table RelationshipMapping whose two
endpoint tables coincide, the importer resolves the from-side and the to-side
join-key column by the same lookup — the first foreign key from the link
table to that table — so every `(from_id, to_id)` pair it builds is
degenerate. -/
theorem self_link_same_join_column (cfg : MappingConfig) (fks : List ForeignKey)
    (db : Db) (rd : RelationshipMapping) (lt : String)
    (hsrc : rd.source = RelSource.linkTable lt)
    (hself : rd.from_node_table = rd.to_node_table) :
    resolveFkColumn fks lt rd.from_node_table = resolveFkColumn fks lt rd.to_node_table ∧
    ∀ h tbl rows, relPlan cfg fks db rd = some (h, tbl, rows) →
      ∀ rr ∈ rows, rr.from_id = rr.to_id := by
  constructor
  · rw [hself]
  · intro h tbl rows hplan rr hrr
    unfold relPlan at hplan
    rcases hfc : findNodeConfig cfg.nodes rd.from_node_table with _ | fc
    · rw [hfc] at hplan
      simp at hplan
    rcases htc : findNodeConfig cfg.nodes rd.to_node_table with _ | tc
    · rw [hfc, htc] at hplan
      simp at hplan
    rw [hfc, htc, hsrc] at hplan
    simp only at hplan
    rw [hself] at hplan
    rcases hres : resolveFkColumn fks lt rd.to_node_table with _ | c
    · rw [hres] at hplan
      simp at hplan
    rw [hres] at hplan
    simp only [Option.some.injEq, Prod.mk.injEq] at hplan
    have hrr2 : rr ∈ linkRelRows rd db lt c c := by
      rw [hplan.2.2]
      exact hrr
    unfold linkRelRows at hrr2
    obtain ⟨row, -, hrow⟩ := List.mem_map.1 hrr2
    rw [← hrow]

/-- Witness: C10 at a concrete self-referencing junction table. -/
theorem self_link_same_join_column_witness :
    resolveFkColumn [⟨"knows", "x_id", "person", "id"⟩, ⟨"knows", "y_id", "person", "id"⟩]
        "knows" (⟨.linkTable "knows", "HAS_PERSON", "person", "person", none,
          []⟩ : RelationshipMapping).from_node_table =
      resolveFkColumn [⟨"knows", "x_id", "person", "id"⟩, ⟨"knows", "y_id", "person", "id"⟩]
        "knows" (⟨.linkTable "knows", "HAS_PERSON", "person", "person", none,
          []⟩ : RelationshipMapping).to_node_table ∧
    ∀ h tbl rows,
      relPlan ⟨[⟨"person", "Person", [("id", "id")], some "id"⟩],
          [⟨.linkTable "knows", "HAS_PERSON", "person", "person", none, []⟩]⟩
        [⟨"knows", "x_id", "person", "id"⟩, ⟨"knows", "y_id", "person", "id"⟩]
        [("knows", [[("x_id", .intV 1), ("y_id", .intV 2)]])]
        ⟨.linkTable "knows", "HAS_PERSON", "person", "person", none, []⟩ =
        some (h, tbl, rows) →
      ∀ rr ∈ rows, rr.from_id = rr.to_id :=
  self_link_same_join_column
    ⟨[⟨"person", "Person", [("id", "id")], some "id"⟩],
      [⟨.linkTable "knows", "HAS_PERSON", "person", "person", none, []⟩]⟩
    [⟨"knows", "x_id", "person", "id"⟩, ⟨"knows", "y_id", "person", "id"⟩]
    [("knows", [[("x_id", .intV 1), ("y_id", .intV 2)]])]
    ⟨.linkTable "knows", "HAS_PERSON", "person", "person", none, []⟩
    "knows" rfl rfl

/-! ## Claim C1 — idempotency of the import

The batched import is flattened into a fold over the individual merge
operations: batching only groups consecutive rows into `UNWIND` queries and
does not change the resulting store state. -/

theorem batchLoop_flatten (B : Nat) :
    ∀ (l acc : List α), (batchLoop B acc l).flatten = acc ++ l := by
  intro l
  induction l with
  | nil =>
    intro acc
    unfold batchLoop
    split
    · rename_i hemp
      rw [List.isEmpty_iff] at hemp
      simp [hemp]
    · simp
  | cons r rest ih =>
    intro acc
    unfold batchLoop
    split
    · rw [List.flatten_cons, ih []]
      rw [List.nil_append, List.append_assoc, List.singleton_append]
    · rw [ih (acc ++ [r])]
      rw [List.append_assoc, List.singleton_append]

theorem chunkBatches_flatten (l : List α) : (chunkBatches l).flatten = l := by
  unfold chunkBatches
  rw [batchLoop_flatten]
  exact List.nil_append l

theorem filter_flatten_eq (p : α → Bool) :
    ∀ L : List (List α), (L.map (fun c => c.filter p)).flatten = L.flatten.filter p := by
  intro L
  induction L with
  | nil => rfl
  | cons c L ih =>
    rw [List.map_cons, List.flatten_cons, List.flatten_cons, List.filter_append, ih]

/-- One node merge operation: the label and identifying property of the
mapping it came from, and the property map of one surviving source row. -/
structure NodeOp where
  label : String
  idp : Option String
  m : Row
deriving DecidableEq, Repr

/-- The (label, identifying value) pair a merge operation keys on. -/
def NodeOp.key (o : NodeOp) : String × Value := (o.label, rowGetO o.m o.idp)

/-- One merge step on the node list. -/
def stepN (ns : List GNode) (o : NodeOp) : List GNode :=
  mergeNodeOne o.label o.idp o.m ns

/-- Whether the operation's `MERGE` pattern matches the node. -/
def opMatches (o : NodeOp) (n : GNode) : Bool :=
  nodeMergeMatches o.label o.idp o.m n

/-- The property maps of one node mapping that survive the null-key filter. -/
def validRowsFor (db : Db) (nd : NodeMapping) : List Row :=
  ((dbRows db nd.source_table).map (buildProps nd.properties)).filter
    (fun p => !(rowGetO p nd.primary_key == Value.null))

/-- All node merge operations of one run, in execution order. -/
def nodeOps (cfg : MappingConfig) (db : Db) : List NodeOp :=
  cfg.nodes.flatMap (fun nd =>
    (validRowsFor db nd).map (fun m => { label := nd.label, idp := nd.primary_key, m := m }))

theorem mergeNodesBatch_eq_valid (label : String) (idp : Option String)
    (chunk : List Row) (g : GraphState) :
    mergeNodesBatch label idp chunk g =
      mergeNodesValid label idp (chunk.filter (fun p => !(rowGetO p idp == Value.null))) g := by
  unfold mergeNodesBatch
  split
  · rename_i hemp
    rw [List.isEmpty_iff] at hemp
    rw [hemp]
    rfl
  · rfl

theorem withNodes_withNodes (g : GraphState) (a b : List GNode) :
    withNodes (withNodes g a) b = withNodes g b := rfl

theorem withNodes_self (g : GraphState) : withNodes g g.nodes = g := rfl

theorem nodes_withNodes (g : GraphState) (a : List GNode) : (withNodes g a).nodes = a := rfl

theorem rels_withNodes (g : GraphState) (a : List GNode) : (withNodes g a).rels = g.rels := rfl

theorem withRels_withRels (g : GraphState) (a b : List GRel) :
    withRels (withRels g a) b = withRels g b := rfl

theorem withRels_self (g : GraphState) : withRels g g.rels = g := rfl

theorem nodes_withRels (g : GraphState) (a : List GRel) : (withRels g a).nodes = g.nodes := rfl

theorem rels_withRels (g : GraphState) (a : List GRel) : (withRels g a).rels = a := rfl

theorem mergeNodesValid_eq_withNodes (label : String) (idp : Option String)
    (valid : List Row) (g : GraphState) :
    mergeNodesValid label idp valid g =
      withNodes g (valid.foldl (fun ns m => mergeNodeOne label idp m ns) g.nodes) := rfl

theorem foldBatches_nodes (label : String) (idp : Option String) :
    ∀ (L : List (List Row)) (g : GraphState),
      L.foldl (fun g2 chunk => mergeNodesBatch label idp chunk g2) g =
        withNodes g
          (((L.map (fun c => c.filter (fun p => !(rowGetO p idp == Value.null)))).flatten).foldl
            (fun ns m => mergeNodeOne label idp m ns) g.nodes) := by
  intro L
  induction L with
  | nil =>
    intro g
    exact (withNodes_self g).symm
  | cons c L ih =>
    intro g
    rw [List.foldl_cons, mergeNodesBatch_eq_valid, mergeNodesValid_eq_withNodes, ih]
    rw [withNodes_withNodes, nodes_withNodes]
    simp [List.foldl_append]

theorem nodeMappingState_eq (db : Db) (nd : NodeMapping) (g : GraphState) :
    nodeMappingState db nd g =
      withNodes g ((validRowsFor db nd).foldl
        (fun ns m => mergeNodeOne nd.label nd.primary_key m ns) g.nodes) := by
  unfold nodeMappingState
  rw [foldBatches_nodes, filter_flatten_eq, chunkBatches_flatten]
  rfl

/-- The node operations of one node mapping. -/
def nodeOpsFor (db : Db) (nd : NodeMapping) : List NodeOp :=
  (validRowsFor db nd).map (fun m => { label := nd.label, idp := nd.primary_key, m := m })

theorem nodeOps_eq_flatMap (cfg : MappingConfig) (db : Db) :
    nodeOps cfg db = cfg.nodes.flatMap (nodeOpsFor db) := rfl

theorem foldl_nodeOpsFor (db : Db) (nd : NodeMapping) (ns : List GNode) :
    (nodeOpsFor db nd).foldl stepN ns =
      (validRowsFor db nd).foldl
        (fun ns2 m => mergeNodeOne nd.label nd.primary_key m ns2) ns := by
  unfold nodeOpsFor
  rw [List.foldl_map]
  rfl

theorem nodePhase_flat (db : Db) :
    ∀ (nds : List NodeMapping) (g : GraphState),
      nds.foldl (fun g2 nd => nodeMappingState db nd g2) g =
        withNodes g ((nds.flatMap (nodeOpsFor db)).foldl stepN g.nodes) := by
  intro nds
  induction nds with
  | nil =>
    intro g
    exact (withNodes_self g).symm
  | cons nd nds ih =>
    intro g
    rw [List.foldl_cons, nodeMappingState_eq, ih]
    rw [withNodes_withNodes, nodes_withNodes]
    rw [List.flatMap_cons, List.foldl_append, foldl_nodeOpsFor]

theorem nodePhaseState_eq (cfg : MappingConfig) (db : Db) (g : GraphState) :
    nodePhaseState cfg db g = withNodes g ((nodeOps cfg db).foldl stepN g.nodes) :=
  nodePhase_flat db cfg.nodes g

/-- One relationship merge operation: the interpolated header and one
`rel_data_list` row. -/
abbrev RelOp := RelHeader × RelRow

/-- One relationship merge step on the relationship list (the node list is
fixed during the relationship phase). -/
def stepR (ns : List GNode) (rels : List GRel) (op : RelOp) : List GRel :=
  relStepRow ns op.1 op.2 rels

/-- The relationship merge operations of one `rel_def`. -/
def relOpsFor (cfg : MappingConfig) (fks : List ForeignKey) (db : Db)
    (rd : RelationshipMapping) : List RelOp :=
  match relPlan cfg fks db rd with
  | none => []
  | some (h, _, rows) => rows.map (fun rr => (h, rr))

/-- All relationship merge operations of one run, in execution order. -/
def relOps (cfg : MappingConfig) (fks : List ForeignKey) (db : Db) : List RelOp :=
  cfg.relationships.flatMap (relOpsFor cfg fks db)

theorem mergeRelsBatch_eq (h : RelHeader) (chunk : List RelRow) (g : GraphState) :
    mergeRelsBatch h chunk g =
      withRels g (chunk.foldl (fun rels rr => relStepRow g.nodes h rr rels) g.rels) := by
  unfold mergeRelsBatch
  split
  · rename_i hemp
    rw [List.isEmpty_iff] at hemp
    rw [hemp]
    rfl
  · rfl

theorem foldBatches_rels (h : RelHeader) :
    ∀ (L : List (List RelRow)) (g : GraphState),
      L.foldl (fun g2 chunk => mergeRelsBatch h chunk g2) g =
        withRels g (L.flatten.foldl (fun rels rr => relStepRow g.nodes h rr rels) g.rels) := by
  intro L
  induction L with
  | nil =>
    intro g
    exact (withRels_self g).symm
  | cons c L ih =>
    intro g
    rw [List.foldl_cons, mergeRelsBatch_eq, ih]
    rw [withRels_withRels, rels_withRels, nodes_withRels]
    simp [List.foldl_append]

theorem relMappingState_eq (cfg : MappingConfig) (fks : List ForeignKey) (db : Db)
    (rd : RelationshipMapping) (g : GraphState) :
    relMappingState cfg fks db rd g =
      withRels g ((relOpsFor cfg fks db rd).foldl (stepR g.nodes) g.rels) := by
  unfold relMappingState relOpsFor
  rcases hplan : relPlan cfg fks db rd with _ | ⟨h, tbl, rows⟩
  · exact (withRels_self g).symm
  · simp only []
    rw [foldBatches_rels, chunkBatches_flatten, List.foldl_map]
    rfl

theorem relPhase_flat (cfg : MappingConfig) (fks : List ForeignKey) (db : Db) :
    ∀ (rds : List RelationshipMapping) (g : GraphState),
      rds.foldl (fun g2 rd => relMappingState cfg fks db rd g2) g =
        withRels g ((rds.flatMap (relOpsFor cfg fks db)).foldl (stepR g.nodes) g.rels) := by
  intro rds
  induction rds with
  | nil =>
    intro g
    exact (withRels_self g).symm
  | cons rd rds ih =>
    intro g
    rw [List.foldl_cons, relMappingState_eq, ih]
    rw [withRels_withRels, rels_withRels, nodes_withRels]
    rw [List.flatMap_cons, List.foldl_append]

theorem relPhaseState_eq (cfg : MappingConfig) (fks : List ForeignKey) (db : Db)
    (g : GraphState) :
    relPhaseState cfg fks db g =
      withRels g ((relOps cfg fks db).foldl (stepR g.nodes) g.rels) :=
  relPhase_flat cfg fks db cfg.relationships g

/-! ### Absorption of node merges

A node operation is absorbed by a node list when its `MERGE` pattern matches
some node and re-applying `SET n += map` to every matching node changes
nothing.  A full run leaves every one of its operations absorbed, and a fold
over absorbed operations is the identity — this is the heart of the
idempotency argument. -/

/-- The operation's pattern matches a node, and updating every matching node
with its map is a no-op. -/
def Absorbed (o : NodeOp) (ns : List GNode) : Prop :=
  (∃ n ∈ ns, opMatches o n = true) ∧
  ∀ n ∈ ns, opMatches o n = true → rowUpdate n.props o.m = n.props

theorem opMatches_iff {o : NodeOp} {n : GNode} :
    opMatches o n = true ↔
      n.label = o.label ∧ rowGetO n.props o.idp = rowGetO o.m o.idp := by
  simp [opMatches, nodeMergeMatches, Bool.and_eq_true, beq_iff_eq]

theorem absorbed_step_id {o : NodeOp} {ns : List GNode} (h : Absorbed o ns) :
    stepN ns o = ns := by
  obtain ⟨⟨n0, hn0, hm0⟩, habs⟩ := h
  unfold stepN mergeNodeOne
  have hany : ns.any (nodeMergeMatches o.label o.idp o.m) = true :=
    List.any_eq_true.2 ⟨n0, hn0, hm0⟩
  rw [if_pos hany]
  have hpt : ∀ n ∈ ns, (if nodeMergeMatches o.label o.idp o.m n
      then { n with props := rowUpdate n.props o.m } else n) = n := by
    intro n hn
    by_cases hm : nodeMergeMatches o.label o.idp o.m n = true
    · rw [if_pos hm]
      have := habs n hn hm
      rw [this]
    · rw [if_neg hm]
  calc ns.map (fun n => if nodeMergeMatches o.label o.idp o.m n
        then { n with props := rowUpdate n.props o.m } else n)
      = ns.map id := List.map_congr_left hpt
    _ = ns := List.map_id ns

theorem step_establishes (o : NodeOp) (hval : rowGetO o.m o.idp ≠ Value.null)
    (ns : List GNode) : Absorbed o (stepN ns o) := by
  unfold stepN mergeNodeOne
  by_cases hany : ns.any (nodeMergeMatches o.label o.idp o.m) = true
  · rw [if_pos hany]
    constructor
    · obtain ⟨n0, hn0, hm0⟩ := List.any_eq_true.1 hany
      refine ⟨{ n0 with props := rowUpdate n0.props o.m }, List.mem_map.2 ⟨n0, hn0, ?_⟩, ?_⟩
      · rw [if_pos hm0]
      · rw [opMatches_iff]
        refine ⟨(opMatches_iff.1 hm0).1, ?_⟩
        exact rowGetO_rowUpdate_of_ne_null hval n0.props
    · intro n2 hn2 hm2
      obtain ⟨n, hn, rfl⟩ := List.mem_map.1 hn2
      by_cases hmn : nodeMergeMatches o.label o.idp o.m n = true
      · rw [if_pos hmn]
        exact rowUpdate_absorb n.props o.m
      · rw [if_neg hmn] at hm2
        exact absurd hm2 hmn
  · rw [if_neg hany]
    constructor
    · refine ⟨_, List.mem_append_right ns (List.mem_singleton.2 rfl), ?_⟩
      rw [opMatches_iff]
      exact ⟨rfl, rowGetO_rowUpdate_of_ne_null hval _⟩
    · intro n hn hm
      rcases List.mem_append.1 hn with hn | hn
      · exact absurd (List.any_eq_true.2 ⟨n, hn, hm⟩) hany
      · rcases List.mem_singleton.1 hn with rfl
        exact rowUpdate_absorb _ o.m

theorem matches_disjoint {o o2 : NodeOp} {n : GNode}
    (hkey : NodeOp.key o ≠ NodeOp.key o2)
    (hidp : o.label = o2.label → o.idp = o2.idp)
    (h1 : opMatches o n = true) (h2 : opMatches o2 n = true) : False := by
  obtain ⟨hl1, hv1⟩ := opMatches_iff.1 h1
  obtain ⟨hl2, hv2⟩ := opMatches_iff.1 h2
  have hlab : o.label = o2.label := by rw [← hl1, hl2]
  have hidp2 := hidp hlab
  apply hkey
  unfold NodeOp.key
  rw [hlab, ← hv1, hidp2, hv2]

theorem step_preserves {o : NodeOp} (o2 : NodeOp) {ns : List GNode}
    (hval2 : rowGetO o2.m o2.idp ≠ Value.null)
    (hkey : NodeOp.key o ≠ NodeOp.key o2)
    (hidp : o.label = o2.label → o.idp = o2.idp)
    (habs : Absorbed o ns) : Absorbed o (stepN ns o2) := by
  obtain ⟨⟨n0, hn0, hm0⟩, hall⟩ := habs
  unfold stepN mergeNodeOne
  by_cases hany : ns.any (nodeMergeMatches o2.label o2.idp o2.m) = true
  · rw [if_pos hany]
    constructor
    · have hnm : ¬ nodeMergeMatches o2.label o2.idp o2.m n0 = true := by
        intro hc
        exact matches_disjoint hkey hidp hm0 hc
      refine ⟨n0, List.mem_map.2 ⟨n0, hn0, ?_⟩, hm0⟩
      rw [if_neg hnm]
    · intro n2 hn2 hm2
      obtain ⟨n, hn, rfl⟩ := List.mem_map.1 hn2
      by_cases hmn : nodeMergeMatches o2.label o2.idp o2.m n = true
      · rw [if_pos hmn] at hm2 ⊢
        exfalso
        obtain ⟨hl, hv⟩ := opMatches_iff.1 hm2
        obtain ⟨hl2, hv2⟩ := opMatches_iff.1 hmn
        have hlab : o.label = o2.label := by rw [← hl, hl2]
        have hidp2 := hidp hlab
        rw [hidp2] at hv
        rw [rowGetO_rowUpdate_of_ne_null hval2 n.props] at hv
        apply hkey
        unfold NodeOp.key
        rw [hlab, hidp2, ← hv]
      · rw [if_neg hmn] at hm2 ⊢
        exact hall n hn hm2
  · rw [if_neg hany]
    constructor
    · exact ⟨n0, List.mem_append_left _ hn0, hm0⟩
    · intro n hn hm
      rcases List.mem_append.1 hn with hn | hn
      · exact hall n hn hm
      · rcases List.mem_singleton.1 hn with rfl
        exfalso
        obtain ⟨hl, hv⟩ := opMatches_iff.1 hm
        have hidp2 := hidp hl.symm
        rw [hidp2] at hv
        rw [rowGetO_rowUpdate_of_ne_null hval2 _] at hv
        apply hkey
        unfold NodeOp.key
        rw [hidp2, ← hl, ← hv]

theorem fold_absorbs :
    ∀ (ops pre : List NodeOp) (ns : List GNode),
      (∀ o ∈ pre ++ ops, rowGetO o.m o.idp ≠ Value.null) →
      ((pre ++ ops).map NodeOp.key).Nodup →
      (∀ o1 ∈ pre ++ ops, ∀ o2 ∈ pre ++ ops, o1.label = o2.label → o1.idp = o2.idp) →
      (∀ o ∈ pre, Absorbed o ns) →
      ∀ o ∈ pre ++ ops, Absorbed o (ops.foldl stepN ns) := by
  intro ops
  induction ops with
  | nil =>
    intro pre ns hval hkeys hidp habs o ho
    rw [List.append_nil] at ho
    exact habs o ho
  | cons o2 rest ih =>
    intro pre ns hval hkeys hidp habs o ho
    have hval2 : rowGetO o2.m o2.idp ≠ Value.null :=
      hval o2 (List.mem_append_right _ (List.mem_cons_self _ _))
    have habs2 : ∀ o3 ∈ pre ++ [o2], Absorbed o3 (stepN ns o2) := by
      intro o3 ho3
      rcases List.mem_append.1 ho3 with hop | hsing
      · have hkeyne : NodeOp.key o3 ≠ NodeOp.key o2 := by
          intro hc
          rw [List.map_append] at hkeys
          have hdis := (List.nodup_append.1 hkeys).2.2
          exact hdis (List.mem_map_of_mem _ hop)
            (hc ▸ List.mem_map_of_mem _ (List.mem_cons_self _ _))
        have hidpo : o3.label = o2.label → o3.idp = o2.idp :=
          hidp o3 (List.mem_append_left _ hop) o2
            (List.mem_append_right _ (List.mem_cons_self _ _))
        exact step_preserves o2 hval2 hkeyne hidpo (habs o3 hop)
      · rcases List.mem_singleton.1 hsing with rfl
        exact step_establishes _ hval2 ns
    have hre : pre ++ o2 :: rest = (pre ++ [o2]) ++ rest := by
      rw [List.append_assoc, List.singleton_append]
    rw [hre] at hval hkeys hidp ho
    have := ih (pre ++ [o2]) (stepN ns o2) hval hkeys hidp habs2 o ho
    rw [List.foldl_cons]
    exact this

theorem foldl_absorbed_id :
    ∀ (ops : List NodeOp) (ns : List GNode), (∀ o ∈ ops, Absorbed o ns) →
      ops.foldl stepN ns = ns := by
  intro ops
  induction ops with
  | nil =>
    intro ns _
    rfl
  | cons o rest ih =>
    intro ns h
    rw [List.foldl_cons, absorbed_step_id (h o (List.mem_cons_self _ _))]
    exact ih ns (fun o2 ho2 => h o2 (List.mem_cons_of_mem _ ho2))

/-! ### Absorption of relationship merges

Relationship merges only append; once every endpoint pair of an operation has
its relationship, re-running the operation changes nothing. -/

/-- Every endpoint pair the operation would merge already has a relationship
of its type. -/
def RelAbsorbed (ns : List GNode) (op : RelOp) (rels : List GRel) : Prop :=
  ∀ ij ∈ matchPairs ns op.1 op.2, relExistsB rels ij.1 ij.2 op.1.relType = true

theorem addRelPair_append (ty : String) (props : Row) (rels : List GRel) (ij : Nat × Nat) :
    ∃ t, addRelPair ty props rels ij = rels ++ t := by
  unfold addRelPair
  split
  · exact ⟨[], (List.append_nil rels).symm⟩
  · exact ⟨_, rfl⟩

theorem relExistsB_mono {rels : List GRel} {i j : Nat} {ty : String} (t : List GRel)
    (h : relExistsB rels i j ty = true) : relExistsB (rels ++ t) i j ty = true := by
  unfold relExistsB at h ⊢
  rw [List.any_append, h]
  rfl

theorem foldAdd_append (ty : String) (props : Row) :
    ∀ (pairs : List (Nat × Nat)) (rels : List GRel),
      ∃ t, pairs.foldl (addRelPair ty props) rels = rels ++ t := by
  intro pairs
  induction pairs with
  | nil =>
    intro rels
    exact ⟨[], (List.append_nil rels).symm⟩
  | cons ij rest ih =>
    intro rels
    rw [List.foldl_cons]
    obtain ⟨t1, h1⟩ := addRelPair_append ty props rels ij
    obtain ⟨t2, h2⟩ := ih (addRelPair ty props rels ij)
    exact ⟨t1 ++ t2, by rw [h2, h1, List.append_assoc]⟩

theorem foldAdd_establishes (ty : String) (props : Row) :
    ∀ (pairs : List (Nat × Nat)) (rels : List GRel), ∀ ij ∈ pairs,
      relExistsB (pairs.foldl (addRelPair ty props) rels) ij.1 ij.2 ty = true := by
  intro pairs
  induction pairs with
  | nil =>
    intro rels ij hij
    exact absurd hij (List.not_mem_nil ij)
  | cons ij0 rest ih =>
    intro rels ij hij
    rw [List.foldl_cons]
    rcases List.mem_cons.1 hij with rfl | hij
    · have hhead : relExistsB (addRelPair ty props rels ij) ij.1 ij.2 ty = true := by
        unfold addRelPair
        split
        · assumption
        · unfold relExistsB
          rw [List.any_append]
          have : ([({ fromIdx := ij.1, toIdx := ij.2, relType := ty, props := props } :
              GRel)]).any (fun r => r.fromIdx == ij.1 && r.toIdx == ij.2 && r.relType == ty) =
              true := by
            simp
          rw [this, Bool.or_true]
      obtain ⟨t, ht⟩ := foldAdd_append ty props rest (addRelPair ty props rels ij)
      rw [ht]
      exact relExistsB_mono t hhead
    · exact ih (addRelPair ty props rels ij0) ij hij

theorem foldAdd_id (ty : String) (props : Row) :
    ∀ (pairs : List (Nat × Nat)) (rels : List GRel),
      (∀ ij ∈ pairs, relExistsB rels ij.1 ij.2 ty = true) →
      pairs.foldl (addRelPair ty props) rels = rels := by
  intro pairs
  induction pairs with
  | nil =>
    intro rels _
    rfl
  | cons ij0 rest ih =>
    intro rels h
    rw [List.foldl_cons]
    have hstep : addRelPair ty props rels ij0 = rels := by
      unfold addRelPair
      rw [if_pos (h ij0 (List.mem_cons_self _ _))]
    rw [hstep]
    exact ih rels (fun ij hij => h ij (List.mem_cons_of_mem _ hij))

theorem relStepRow_append (ns : List GNode) (h : RelHeader) (rr : RelRow)
    (rels : List GRel) : ∃ t, relStepRow ns h rr rels = rels ++ t :=
  foldAdd_append h.relType rr.props (matchPairs ns h rr) rels

theorem relStepRow_establishes (ns : List GNode) (h : RelHeader) (rr : RelRow)
    (rels : List GRel) : RelAbsorbed ns (h, rr) (relStepRow ns h rr rels) := by
  intro ij hij
  exact foldAdd_establishes h.relType rr.props (matchPairs ns h rr) rels ij hij

theorem relAbsorbed_mono {ns : List GNode} {op : RelOp} {rels : List GRel} (t : List GRel)
    (h : RelAbsorbed ns op rels) : RelAbsorbed ns op (rels ++ t) :=
  fun ij hij => relExistsB_mono t (h ij hij)

theorem relStepRow_id {ns : List GNode} {h : RelHeader} {rr : RelRow} {rels : List GRel}
    (habs : RelAbsorbed ns (h, rr) rels) : relStepRow ns h rr rels = rels :=
  foldAdd_id h.relType rr.props (matchPairs ns h rr) rels habs

theorem foldStep_append (ns : List GNode) :
    ∀ (rops : List RelOp) (rels : List GRel), ∃ t, rops.foldl (stepR ns) rels = rels ++ t := by
  intro rops
  induction rops with
  | nil =>
    intro rels
    exact ⟨[], (List.append_nil rels).symm⟩
  | cons op0 rest ih =>
    intro rels
    rw [List.foldl_cons]
    obtain ⟨t1, h1⟩ := relStepRow_append ns op0.1 op0.2 rels
    obtain ⟨t2, h2⟩ := ih (stepR ns rels op0)
    refine ⟨t1 ++ t2, ?_⟩
    rw [h2]
    unfold stepR
    rw [h1, List.append_assoc]

theorem relFold_establishes (ns : List GNode) :
    ∀ (rops : List RelOp) (rels : List GRel), ∀ op ∈ rops,
      RelAbsorbed ns op (rops.foldl (stepR ns) rels) := by
  intro rops
  induction rops with
  | nil =>
    intro rels op hop
    exact absurd hop (List.not_mem_nil op)
  | cons op0 rest ih =>
    intro rels op hop
    rw [List.foldl_cons]
    rcases List.mem_cons.1 hop with rfl | hop
    · obtain ⟨t, ht⟩ := foldStep_append ns rest (stepR ns rels op)
      rw [ht]
      exact relAbsorbed_mono t (relStepRow_establishes ns op.1 op.2 rels)
    · exact ih (stepR ns rels op0) op hop

theorem relFold_id (ns : List GNode) :
    ∀ (rops : List RelOp) (rels : List GRel),
      (∀ op ∈ rops, RelAbsorbed ns op rels) → rops.foldl (stepR ns) rels = rels := by
  intro rops
  induction rops with
  | nil =>
    intro rels _
    rfl
  | cons op0 rest ih =>
    intro rels h
    rw [List.foldl_cons]
    have hstep : stepR ns rels op0 = rels := relStepRow_id (h op0 (List.mem_cons_self _ _))
    rw [hstep]
    exact ih rels (fun op hop => h op (List.mem_cons_of_mem _ hop))

/-! ### The idempotency theorem -/

theorem importState_eq (cfg : MappingConfig) (fks : List ForeignKey) (db : Db)
    (g : GraphState) :
    importState cfg fks db g =
      ⟨(nodeOps cfg db).foldl stepN g.nodes,
       (relOps cfg fks db).foldl (stepR ((nodeOps cfg db).foldl stepN g.nodes)) g.rels⟩ := by
  unfold importState
  rw [nodePhaseState_eq, relPhaseState_eq]
  rfl

/-- Claim C1 (confirmed): re-running the full import against the same source
data, the same extracted schema and the same target store reproduces the
store state exactly — no duplicate nodes, no duplicate relationships, node
properties converged to the latest source values by `SET n += map`, and
relationship properties left untouched by `ON CREATE SET`.  The hypotheses
state well-formedness of the run's node operations, which hold for a
relational source (per-table unique primary-key values) and a config whose
mappings of one label agree on the identifying property: no two merges share
a (label, key-value) pair, and same-label merges use the same key property. -/
theorem import_data_idempotent (cfg : MappingConfig) (fks : List ForeignKey) (db : Db)
    (g : GraphState)
    (hkeys : ((nodeOps cfg db).map NodeOp.key).Nodup)
    (hidp : ∀ o1 ∈ nodeOps cfg db, ∀ o2 ∈ nodeOps cfg db,
      o1.label = o2.label → o1.idp = o2.idp) :
    importState cfg fks db (importState cfg fks db g) = importState cfg fks db g := by
  have hval : ∀ o ∈ nodeOps cfg db, rowGetO o.m o.idp ≠ Value.null := by
    intro o ho
    rw [nodeOps_eq_flatMap] at ho
    obtain ⟨nd, _, ho⟩ := List.mem_flatMap.1 ho
    unfold nodeOpsFor at ho
    obtain ⟨m, hm, rfl⟩ := List.mem_map.1 ho
    unfold validRowsFor at hm
    have := (List.mem_filter.1 hm).2
    simpa using this
  have habs : ∀ o ∈ nodeOps cfg db, Absorbed o ((nodeOps cfg db).foldl stepN g.nodes) := by
    have h0 : ∀ o ∈ ([] : List NodeOp), Absorbed o g.nodes := by
      intro o ho
      exact absurd ho (List.not_mem_nil o)
    have := fold_absorbs (nodeOps cfg db) [] g.nodes (by simpa using hval)
      (by simpa using hkeys) (by simpa using hidp) h0
    intro o ho
    exact this o (by simpa using ho)
  have hrabs : ∀ op ∈ relOps cfg fks db,
      RelAbsorbed ((nodeOps cfg db).foldl stepN g.nodes) op
        ((relOps cfg fks db).foldl
          (stepR ((nodeOps cfg db).foldl stepN g.nodes)) g.rels) := by
    intro op hop
    exact relFold_establishes _ (relOps cfg fks db) g.rels op hop
  rw [importState_eq cfg fks db g, importState_eq cfg fks db]
  simp only []
  rw [foldl_absorbed_id _ _ habs]
  rw [relFold_id _ _ _ hrabs]

/-- A one-table config with a self foreign key, used to witness idempotency. -/
def cfgIdem : MappingConfig :=
  { nodes := [⟨"t1", "T1", [("id", "id"), ("ref", "ref")], some "id"⟩],
    relationships := [⟨.foreignKey "t1.ref", "HAS_T1", "t1", "t1", some "OUT", []⟩] }

/-- Source rows for the idempotency witness. -/
def dbIdem : Db :=
  [("t1", [[("id", .intV 1), ("ref", .intV 1)], [("id", .intV 2), ("ref", .intV 1)]])]

/-- Extracted foreign keys for the idempotency witness. -/
def fksIdem : List ForeignKey := [⟨"t1", "ref", "t1", "id"⟩]

/-- Witness: running the import twice from the empty store equals running it
once, at a concrete config, schema and source. -/
theorem import_data_idempotent_witness :
    importState cfgIdem fksIdem dbIdem (importState cfgIdem fksIdem dbIdem ⟨[], []⟩) =
      importState cfgIdem fksIdem dbIdem ⟨[], []⟩ :=
  import_data_idempotent cfgIdem fksIdem dbIdem ⟨[], []⟩ (by decide) (by decide)

end RDB2Neo4j
